import Mathlib

/-!
# memrw64.h — ordered 64-bit memory accessors

A shallow embedding of `system/memrw64.h`.  Each of the four accessors is a
single `__asm__ __volatile__` statement over two operands, the memory operand
`"m" (*ptr)` and the register operand `"r" (val)` (`"=r" (val)` in `read64`).
The embedding keeps the instructions of each template, gives them their x86-64
meaning on a byte-addressable little-endian memory, and records every memory
access in a trace.
-/

namespace Memrw64

/-! ## Memory model -/

/-- Byte-addressable memory: the byte stored at each address. -/
abbrev Mem := Nat → Nat

/-- Number of distinct 64-bit addresses. -/
def addrSpace : Nat := 2 ^ 64

/-- Replace the byte at address `a`. -/
def setByte (m : Mem) (a b : Nat) : Mem :=
  fun x => if x = a then b else m x

/-- Store the `n` low-order bytes of `v` at `a`, `a+1`, ... (little endian,
addresses taken modulo `2^64`). -/
def storeBytes : Nat → Nat → Nat → Mem → Mem
  | 0, _, _, m => m
  | n + 1, a, v, m => storeBytes n (a + 1) (v / 256) (setByte m (a % addrSpace) (v % 256))

/-- Load the `n` bytes at `a`, `a+1`, ... as a little-endian number. -/
def loadBytes : Nat → Nat → Mem → Nat
  | 0, _, _ => 0
  | n + 1, a, m => m (a % addrSpace) % 256 + 256 * loadBytes n (a + 1) m

/-- A pointer value that is naturally aligned for a 64-bit access. -/
def Aligned64 (a : Nat) : Prop := a < addrSpace ∧ a % 8 = 0

instance (a : Nat) : Decidable (Aligned64 a) := by
  unfold Aligned64; infer_instance

/-! ## Instructions and traces -/

/-- Operand size selected by the instruction suffix: `l` is 32 bits, `q` is 64 bits. -/
inductive Width where
  | l
  | q
  deriving DecidableEq, Repr

/-- Operand size in bytes. -/
def Width.bytes : Width → Nat
  | .l => 4
  | .q => 8

/-- One memory access as seen on the bus. -/
inductive Access where
  | load (bytes addr : Nat)
  | store (bytes addr value : Nat) (nonTemporal : Bool)
  deriving DecidableEq, Repr

/-- The instruction forms that occur in the templates, after substituting the
operands: `mov` from the memory operand to the register operand, `mov` from the
register operand to the memory operand, and `movnti` from the register operand
to the memory operand. -/
inductive Insn where
  | movLoad (w : Width)
  | movStore (w : Width)
  | movntiStore (w : Width)
  deriving DecidableEq, Repr

/-- State seen by an asm statement: memory, the access trace, and the general
register bound to `val`. -/
structure Machine where
  mem : Mem
  trace : List Access
  reg : Nat

/-- What the rest of the program and the hardware see: memory and the accesses
performed so far. -/
structure World where
  mem : Mem
  trace : List Access

/-- Execute one instruction with the memory operand at address `ptr`.  A load
writes the zero-extended value to the register; a store writes the low
`w.bytes` bytes of the register. -/
def step (ptr : Nat) (i : Insn) (s : Machine) : Machine :=
  match i with
  | .movLoad w =>
      { s with reg := loadBytes w.bytes ptr s.mem
               trace := s.trace ++ [Access.load w.bytes ptr] }
  | .movStore w =>
      { s with mem := storeBytes w.bytes ptr s.reg s.mem
               trace := s.trace ++ [Access.store w.bytes ptr (s.reg % 256 ^ w.bytes) false] }
  | .movntiStore w =>
      { s with mem := storeBytes w.bytes ptr s.reg s.mem
               trace := s.trace ++ [Access.store w.bytes ptr (s.reg % 256 ^ w.bytes) true] }

/-- Execute a template, instruction by instruction. -/
def exec (ptr : Nat) : List Insn → Machine → Machine
  | [], s => s
  | i :: is, s => exec ptr is (step ptr i s)

/-- Enter an asm statement with `val` in the register operand. -/
def enter (w : World) (val : Nat) : Machine :=
  { mem := w.mem, trace := w.trace, reg := val % 2 ^ 64 }

/-- Leave an asm statement. -/
def leave (s : Machine) : World :=
  { mem := s.mem, trace := s.trace }

/-! ## The four accessors -/

/-- Template of `read64`: `"movq %1, %0"` with `%0 = "=r" (val)`, `%1 = "m" (*ptr)`. -/
def read64_asm : List Insn := [.movLoad .q]

/-- Template of `write64`: `"movq %1, %0"` with `%0 = "m" (*ptr)`, `%1 = "r" (val)`. -/
def write64_asm : List Insn := [.movStore .q]

/-- Template of `write64_nt`: `"movnti %1, %0"` with `%0 = "m" (*ptr)`,
`%1 = "r" (val)`; the 64-bit register operand makes it a 64-bit store. -/
def write64_nt_asm : List Insn := [.movntiStore .q]

/-- Template of `flush64`: `"movl %1, %0"` then `"movl %0, %1"` with
`%0 = "m" (*ptr)`, `%1 = "r" (val)`; the `l` suffix makes both 32-bit moves. -/
def flush64_asm : List Insn := [.movStore .l, .movLoad .l]

/-- Reads and returns the value stored in the 64-bit memory location pointed
to by `ptr`.  The output register is write-only, so it is entered as `0`. -/
def read64 (w : World) (ptr : Nat) : Nat × World :=
  let s := exec ptr read64_asm (enter w 0)
  (s.reg, leave s)

/-- Writes `val` to the 64-bit memory location pointed to by `ptr`. -/
def write64 (w : World) (ptr val : Nat) : World :=
  leave (exec ptr write64_asm (enter w val))

/-- Writes `val` to the 64-bit memory location pointed to by `ptr`, using the
non-temporal hint. -/
def write64_nt (w : World) (ptr val : Nat) : World :=
  leave (exec ptr write64_nt_asm (enter w val))

/-- The `flush64` of the source: a 32-bit store of `val` followed by a 32-bit
load from the same address whose result is discarded. -/
def flush64 (w : World) (ptr val : Nat) : World :=
  leave (exec ptr flush64_asm (enter w val))

/-- Memory holding zero everywhere, with an empty trace. -/
def zeroWorld : World := { mem := fun _ => 0, trace := [] }

/-! ## Lemmas on the memory model -/

theorem addr_succ_ne (a i n : Nat) (hn : n + 1 ≤ addrSpace) (hi : i < n) :
    (a + 1 + i) % addrSpace ≠ a % addrSpace := by
  simp only [addrSpace] at *
  omega

/-- A store leaves every byte outside its range unchanged. -/
theorem storeBytes_frame (n a v : Nat) (m : Mem) (x : Nat)
    (h : ∀ i, i < n → (a + i) % addrSpace ≠ x) : storeBytes n a v m x = m x := by
  induction n generalizing a v m with
  | zero => rfl
  | succ n ih =>
    rw [storeBytes, ih]
    · have h0 := h 0 (by omega)
      simp only [Nat.add_zero] at h0
      simp [setByte, Ne.symm h0]
    · intro i hi
      have := h (i + 1) (by omega)
      rwa [show a + 1 + i = a + (i + 1) by omega]

/-- A load depends only on the bytes in its range. -/
theorem loadBytes_congr (n a : Nat) (m1 m2 : Mem)
    (h : ∀ i, i < n → m1 ((a + i) % addrSpace) = m2 ((a + i) % addrSpace)) :
    loadBytes n a m1 = loadBytes n a m2 := by
  induction n generalizing a with
  | zero => rfl
  | succ n ih =>
    have h0 := h 0 (by omega)
    simp only [Nat.add_zero] at h0
    rw [loadBytes, loadBytes, h0, ih]
    intro i hi
    have := h (i + 1) (by omega)
    rwa [show a + 1 + i = a + (i + 1) by omega]

/-- Loading the range just stored returns the stored bytes. -/
theorem loadBytes_storeBytes (n a v : Nat) (m : Mem) (hn : n ≤ addrSpace) :
    loadBytes n a (storeBytes n a v m) = v % 256 ^ n := by
  induction n generalizing a v m with
  | zero => simp [loadBytes, Nat.mod_one]
  | succ n ih =>
    rw [loadBytes, storeBytes, ih _ _ _ (by omega),
      storeBytes_frame n (a + 1) _ _ (a % addrSpace) (fun i hi => addr_succ_ne a i n hn hi)]
    simp only [setByte, if_true, Nat.mod_mod]
    rw [pow_succ, Nat.mul_comm (256 ^ n) 256, Nat.mod_mul]

/-- A store of `n` bytes ignores the bits of the value above the low `n` bytes. -/
theorem storeBytes_mod (n a v : Nat) (m : Mem) :
    storeBytes n a (v % 256 ^ n) m = storeBytes n a v m := by
  induction n generalizing a v m with
  | zero => rfl
  | succ n ih =>
    have h1 : v % 256 ^ (n + 1) % 256 = v % 256 := by
      rw [pow_succ, Nat.mul_comm (256 ^ n) 256]
      exact Nat.mod_mul_right_mod v 256 (256 ^ n)
    have h2 : v % 256 ^ (n + 1) / 256 = v / 256 % 256 ^ n := by
      rw [pow_succ, Nat.mul_comm (256 ^ n) 256, Nat.mod_mul_right_div_self]
    rw [storeBytes, storeBytes, h1, h2, ih]

/-- A load is unaffected by a store to a disjoint range. -/
theorem loadBytes_storeBytes_disjoint (k n a b v : Nat) (m : Mem)
    (h : ∀ i, i < k → ∀ j, j < n → (a + j) % addrSpace ≠ (b + i) % addrSpace) :
    loadBytes k b (storeBytes n a v m) = loadBytes k b m :=
  loadBytes_congr k b _ _ (fun i hi => storeBytes_frame n a v m _ (fun j hj => h i hi j hj))

/-- Distinct aligned 64-bit locations do not overlap. -/
theorem aligned_disjoint (a b : Nat) (ha : Aligned64 a) (hb : Aligned64 b) (hab : b ≠ a)
    (i : Nat) (hi : i < 8) (j : Nat) (hj : j < 8) :
    (a + j) % addrSpace ≠ (b + i) % addrSpace := by
  obtain ⟨ha1, ha2⟩ := ha
  obtain ⟨hb1, hb2⟩ := hb
  simp only [addrSpace] at *
  omega

/-! ## What each accessor does to the world -/

theorem read64_val (w : World) (a : Nat) : (read64 w a).1 = loadBytes 8 a w.mem := rfl

theorem read64_mem (w : World) (a : Nat) : (read64 w a).2.mem = w.mem := rfl

theorem write64_mem (w : World) (a v : Nat) :
    (write64 w a v).mem = storeBytes 8 a (v % 2 ^ 64) w.mem := rfl

theorem write64_nt_mem (w : World) (a v : Nat) :
    (write64_nt w a v).mem = storeBytes 8 a (v % 2 ^ 64) w.mem := rfl

theorem flush64_mem (w : World) (a v : Nat) :
    (flush64 w a v).mem = storeBytes 4 a (v % 2 ^ 64) w.mem := rfl

theorem mod64_mod32 (v : Nat) : v % 2 ^ 64 % 256 ^ 4 = v % 2 ^ 32 := by
  norm_num

theorem mod64_bytes (v : Nat) (hv : v < 2 ^ 64) : v % 2 ^ 64 % 256 ^ 8 = v := by
  norm_num at *
  omega

/-! ## Properties of the accessors -/

/-- C1 (round trip): for every memory state, every 64-bit-aligned address `a`
and every 64-bit value `v`, `read64` at `a` after `write64 (a, v)` returns
exactly `v`.  Alignment is the caller's obligation in the source; the byte
model gives the same result at every address. -/
theorem read64_write64_roundtrip (w : World) (a v : Nat)
    (ha : Aligned64 a) (hv : v < 2 ^ 64) :
    (read64 (write64 w a v) a).1 = v := by
  have _ := ha
  rw [read64_val, write64_mem, loadBytes_storeBytes 8 a _ _ (by simp [addrSpace])]
  exact mod64_bytes v hv

theorem read64_write64_roundtrip_witness :
    Aligned64 8 ∧ 0x1122334455667788 < 2 ^ 64 ∧
      (read64 (write64 zeroWorld 8 0x1122334455667788) 8).1 = 0x1122334455667788 :=
  ⟨by decide, by decide,
    read64_write64_roundtrip zeroWorld 8 0x1122334455667788 (by decide) (by decide)⟩

/-- C2 (flush completion) evaluated on the code: on zeroed memory, at the
aligned address `8`, `flush64` of `0x1122334455667788` followed by `read64`
returns `0x55667788`, the low half only, and not the value flushed. -/
theorem flush64_read64_low_half_only :
    Aligned64 8 ∧ 0x1122334455667788 < 2 ^ 64 ∧
      (read64 (flush64 zeroWorld 8 0x1122334455667788) 8).1 = 0x55667788 ∧
      (read64 (flush64 zeroWorld 8 0x1122334455667788) 8).1 ≠ 0x1122334455667788 := by
  decide

/-- C3 (non-temporal equivalence): for every memory state, every
64-bit-aligned address `a` and every 64-bit value `v`, `read64` at `a` after
`write64_nt (a, v)` returns `v`.  As for `write64`, the byte model does not
depend on the alignment. -/
theorem read64_write64_nt_roundtrip (w : World) (a v : Nat)
    (ha : Aligned64 a) (hv : v < 2 ^ 64) :
    (read64 (write64_nt w a v) a).1 = v := by
  have _ := ha
  rw [read64_val, write64_nt_mem, loadBytes_storeBytes 8 a _ _ (by simp [addrSpace])]
  exact mod64_bytes v hv

theorem read64_write64_nt_roundtrip_witness :
    Aligned64 16 ∧ 0xFFEEDDCCBBAA9988 < 2 ^ 64 ∧
      (read64 (write64_nt zeroWorld 16 0xFFEEDDCCBBAA9988) 16).1 = 0xFFEEDDCCBBAA9988 :=
  ⟨by decide, by decide,
    read64_write64_nt_roundtrip zeroWorld 16 0xFFEEDDCCBBAA9988 (by decide) (by decide)⟩

/-- C4 (last write wins): after `write64 (a, v1)` then `write64 (a, v2)`,
`read64 (a)` returns `v2`; it does not return `v1` when the two differ, and it
returns neither of the values that mix a 32-bit half of `v1` with the other
half of `v2`, unless that mixture happens to be `v2` itself. -/
theorem read64_last_write_wins (w : World) (a v1 v2 : Nat)
    (h1 : v1 < 2 ^ 64) (h2 : v2 < 2 ^ 64) :
    (read64 (write64 (write64 w a v1) a v2) a).1 = v2 ∧
      (v1 ≠ v2 → (read64 (write64 (write64 w a v1) a v2) a).1 ≠ v1) ∧
      (v2 % 2 ^ 32 + 2 ^ 32 * (v1 / 2 ^ 32) ≠ v2 →
        (read64 (write64 (write64 w a v1) a v2) a).1 ≠ v2 % 2 ^ 32 + 2 ^ 32 * (v1 / 2 ^ 32)) ∧
      (v1 % 2 ^ 32 + 2 ^ 32 * (v2 / 2 ^ 32) ≠ v2 →
        (read64 (write64 (write64 w a v1) a v2) a).1 ≠ v1 % 2 ^ 32 + 2 ^ 32 * (v2 / 2 ^ 32)) := by
  have _ := h1
  have h : (read64 (write64 (write64 w a v1) a v2) a).1 = v2 := by
    rw [read64_val, write64_mem, loadBytes_storeBytes 8 a _ _ (by simp [addrSpace])]
    exact mod64_bytes v2 h2
  rw [h]
  exact ⟨rfl, fun hne => Ne.symm hne, fun hne => Ne.symm hne, fun hne => Ne.symm hne⟩

theorem read64_last_write_wins_witness :
    (read64 (write64 (write64 zeroWorld 8 1) 8 2) 8).1 = 2 ∧
      (read64 (write64 (write64 zeroWorld 8 1) 8 2) 8).1 ≠ 1 :=
  ⟨(read64_last_write_wins zeroWorld 8 1 2 (by decide) (by decide)).1,
    (read64_last_write_wins zeroWorld 8 1 2 (by decide) (by decide)).2.1 (by decide)⟩

/-- C5: `write64_nt` has the same program-visible effect as `write64`: the
memory produced by `write64_nt (a, v)` equals the memory produced by
`write64 (a, v)` at every address. -/
theorem write64_nt_mem_eq_write64 (w : World) (a v : Nat) :
    ∀ x, (write64_nt w a v).mem x = (write64 w a v).mem x := by
  intro x
  rw [write64_nt_mem, write64_mem]

/-- C7: `read64` has no effect on memory: the memory after `read64 (a)` equals
the memory before it at every address, and a second `read64 (a)` returns the
same value as the first. -/
theorem read64_no_effect (w : World) (a : Nat) :
    (∀ x, (read64 w a).2.mem x = w.mem x) ∧
      (read64 (read64 w a).2 a).1 = (read64 w a).1 := by
  refine ⟨fun x => ?_, ?_⟩
  · rw [read64_mem]
  · rw [read64_val, read64_val, read64_mem]

/-- C9: `flush64` transfers only 32 bits: it stores the low 32 bits of `v` into
the 4 bytes at `a` and then loads 32 bits from `a`; the 4 bytes at `a+4` are
the same after the call as before it; and the upper 32 bits of `v` do not
reach memory, the call having the same effect as with those bits cleared. -/
theorem flush64_transfers_32_bits (w : World) (a v : Nat) :
    (flush64 w a v).mem = storeBytes 4 a (v % 2 ^ 32) w.mem ∧
      (flush64 w a v).trace
        = w.trace ++ [Access.store 4 a (v % 2 ^ 32) false, Access.load 4 a] ∧
      loadBytes 4 a (flush64 w a v).mem = v % 2 ^ 32 ∧
      (∀ i, i < 4 →
        (flush64 w a v).mem ((a + 4 + i) % addrSpace) = w.mem ((a + 4 + i) % addrSpace)) ∧
      flush64 w a v = flush64 w a (v % 2 ^ 32) := by
  have hm : (flush64 w a v).mem = storeBytes 4 a (v % 2 ^ 32) w.mem := by
    rw [flush64_mem, ← storeBytes_mod 4 a (v % 2 ^ 64), mod64_mod32]
  have ht : (flush64 w a v).trace
      = w.trace ++ [Access.store 4 a (v % 2 ^ 32) false, Access.load 4 a] := by
    show w.trace ++ [Access.store 4 a (v % 2 ^ 64 % 256 ^ 4) false] ++ [Access.load 4 a] = _
    rw [mod64_mod32, List.append_assoc]
    rfl
  refine ⟨hm, ht, ?_, ?_, ?_⟩
  · rw [hm, loadBytes_storeBytes 4 a _ _ (by simp [addrSpace])]
    norm_num
  · intro i hi
    rw [hm]
    apply storeBytes_frame
    intro j hj
    simp only [addrSpace]
    omega
  · have hm2 := flush64_mem w a (v % 2 ^ 32)
    have ht2 : (flush64 w a (v % 2 ^ 32)).trace
        = w.trace ++ [Access.store 4 a (v % 2 ^ 32) false, Access.load 4 a] := by
      show w.trace ++ [Access.store 4 a (v % 2 ^ 32 % 2 ^ 64 % 256 ^ 4) false]
        ++ [Access.load 4 a] = _
      rw [show v % 2 ^ 32 % 2 ^ 64 % 256 ^ 4 = v % 2 ^ 32 by norm_num, List.append_assoc]
      rfl
    have hm3 : (flush64 w a (v % 2 ^ 32)).mem = storeBytes 4 a (v % 2 ^ 32) w.mem := by
      rw [hm2, show v % 2 ^ 32 % 2 ^ 64 = v % 2 ^ 32 by omega]
    have hw : ∀ p q : World, p.mem = q.mem → p.trace = q.trace → p = q := by
      intro p q h1 h2
      cases p; cases q
      simp only at h1 h2
      rw [h1, h2]
    exact hw _ _ (hm.trans hm3.symm) (ht.trans ht2.symm)

/-- C10 (writes are local): for 64-bit-aligned addresses `a` and `b` with `b`
different from `a`, each of `write64 (a, v)`, `write64_nt (a, v)` and
`flush64 (a, v)` leaves the 64-bit location at `b` unchanged: `read64 (b)`
returns the same value after the write as before it. -/
theorem writes_are_local (w : World) (a b v : Nat)
    (ha : Aligned64 a) (hb : Aligned64 b) (hab : b ≠ a) :
    (read64 (write64 w a v) b).1 = (read64 w b).1 ∧
      (read64 (write64_nt w a v) b).1 = (read64 w b).1 ∧
      (read64 (flush64 w a v) b).1 = (read64 w b).1 := by
  refine ⟨?_, ?_, ?_⟩
  · rw [read64_val, read64_val, write64_mem]
    exact loadBytes_storeBytes_disjoint 8 8 a b _ _ (aligned_disjoint a b ha hb hab)
  · rw [read64_val, read64_val, write64_nt_mem]
    exact loadBytes_storeBytes_disjoint 8 8 a b _ _ (aligned_disjoint a b ha hb hab)
  · rw [read64_val, read64_val, flush64_mem]
    exact loadBytes_storeBytes_disjoint 8 4 a b _ _
      (fun i hi j hj => aligned_disjoint a b ha hb hab i hi j (by omega))

theorem writes_are_local_witness :
    Aligned64 8 ∧ Aligned64 16 ∧ 16 ≠ 8 ∧
      (read64 (write64 zeroWorld 8 7) 16).1 = (read64 zeroWorld 16).1 ∧
      (read64 (write64_nt zeroWorld 8 7) 16).1 = (read64 zeroWorld 16).1 ∧
      (read64 (flush64 zeroWorld 8 7) 16).1 = (read64 zeroWorld 16).1 :=
  ⟨by decide, by decide, by decide,
    writes_are_local zeroWorld 8 16 7 (by decide) (by decide) (by decide)⟩

end Memrw64
